import Mathlib

/-!
Verification of the pygimli convenience layer:
matrix adapters (src/python/pygimli/core/matrix.py),
data viewers (src/python/pygimli/mplviewer/dataview.py) and the
VES manager (src/python/pygimli/physics/ert/ves.py).

Numeric values are modelled by the rationals; vectors are lists and the
numpy elementwise operations become truncating zipWith operations, which
agrees with numpy broadcasting whenever the lengths match (the only case
the code exercises).  External native objects (pg.MatrixBase descendants,
scipy eigh, the RInversion engine, matplotlib) are modelled as opaque
parameters or as configuration records collecting exactly the calls the
Python code makes on them.
-/

namespace PyGimli

/-- Elementwise product, the numpy expression x * y on 1-d arrays. -/
def vmul (a b : List ℚ) : List ℚ := List.zipWith (fun s t => s * t) a b

/-- Elementwise sum, the numpy expression x + y on 1-d arrays. -/
def vadd (a b : List ℚ) : List ℚ := List.zipWith (fun s t => s + t) a b

/-- Scalar times vector, the numpy expression c * x. -/
def smul (c : ℚ) (x : List ℚ) : List ℚ := x.map (fun t => c * t)

/-- Euclidean inner product of two vectors. -/
def dot (a b : List ℚ) : ℚ := (vmul a b).sum

/-- Dense matrix-vector product, row-wise dot products. -/
def matVec (M : List (List ℚ)) (x : List ℚ) : List ℚ := M.map (fun row => dot row x)

/--
Opaque external matrix (the pg.MatrixBase interface): the adapter classes
only ever call mult, transMult, rows and cols on the wrapped object, so the
model keeps exactly these four components.
-/
structure PGMat where
  mult : List ℚ → List ℚ
  transMult : List ℚ → List ℚ
  rows : ℕ
  cols : ℕ

/-- MultLeftMatrix stored fields: matrix A, left-side vector, verbose flag. -/
structure MultLeftMatrix where
  A : PGMat
  left : List ℚ
  verbose : Bool

/-- MultLeftMatrix.__init__: raises when A.rows() differs from len(left). -/
def mkMultLeftMatrix (A : PGMat) (left : List ℚ) (verbose : Bool) :
    Except String MultLeftMatrix :=
  if A.rows ≠ left.length then
    .error "Matrix columns do not fit vector length!"
  else
    .ok ⟨A, left, verbose⟩

/-- MultLeftMatrix.rows: return number of rows (using underlying matrix). -/
def MultLeftMatrix.rows (m : MultLeftMatrix) : ℕ := m.A.rows

/-- MultLeftMatrix.cols: return number of columns (using underlying matrix). -/
def MultLeftMatrix.cols (m : MultLeftMatrix) : ℕ := m.A.cols

/-- MultLeftMatrix.mult: return self.A.mult(x) * self.left. -/
def MultLeftMatrix.mult (m : MultLeftMatrix) (x : List ℚ) : List ℚ :=
  vmul (m.A.mult x) m.left

/-- MultLeftMatrix.transMult: return self.A.transMult(x * self.left). -/
def MultLeftMatrix.transMult (m : MultLeftMatrix) (x : List ℚ) : List ℚ :=
  m.A.transMult (vmul x m.left)

/-- MultRightMatrix stored fields: matrix A and right-hand vector r. -/
structure MultRightMatrix where
  A : PGMat
  r : List ℚ

/--
MultRightMatrix.__init__: when r is None the stored vector defaults to
pg.RVector(A.cols(), 1.0), the all-ones vector of length A.cols().
No length check is performed for an explicit r.
-/
def mkMultRightMatrix (A : PGMat) (r : Option (List ℚ)) : MultRightMatrix :=
  match r with
  | none => ⟨A, List.replicate A.cols 1⟩
  | some v => ⟨A, v⟩

/-- MultRightMatrix.mult: return M*x = A*(r*x). -/
def MultRightMatrix.mult (m : MultRightMatrix) (x : List ℚ) : List ℚ :=
  m.A.mult (vmul x m.r)

/-- MultRightMatrix.transMult: return (A.T*x)*r. -/
def MultRightMatrix.transMult (m : MultRightMatrix) (x : List ℚ) : List ℚ :=
  vmul (m.A.transMult x) m.r

/-- MultRightMatrix.cols: number of columns. -/
def MultRightMatrix.cols (m : MultRightMatrix) : ℕ := m.A.cols

/-- MultRightMatrix.rows: number of rows. -/
def MultRightMatrix.rows (m : MultRightMatrix) : ℕ := m.A.rows

/-- MultLeftRightMatrix stored fields. -/
structure MultLeftRightMatrix where
  A : PGMat
  left : List ℚ
  right : List ℚ
  verbose : Bool

/-- MultLeftRightMatrix.__init__: checks both vector lengths. -/
def mkMultLeftRightMatrix (A : PGMat) (left right : List ℚ) (verbose : Bool) :
    Except String MultLeftRightMatrix :=
  if A.cols ≠ right.length then
    .error "Matrix columns do not fit right vector length!"
  else if A.rows ≠ left.length then
    .error "Matrix rows do not fit left vector length!"
  else
    .ok ⟨A, left, right, verbose⟩

/-- MultLeftRightMatrix.rows. -/
def MultLeftRightMatrix.rows (m : MultLeftRightMatrix) : ℕ := m.A.rows

/-- MultLeftRightMatrix.cols. -/
def MultLeftRightMatrix.cols (m : MultLeftRightMatrix) : ℕ := m.A.cols

/-- MultLeftRightMatrix.mult: return self.A.mult(x * self.right) * self.left. -/
def MultLeftRightMatrix.mult (m : MultLeftRightMatrix) (x : List ℚ) : List ℚ :=
  vmul (m.A.mult (vmul x m.right)) m.left

/-- MultLeftRightMatrix.transMult: return self.A.transMult(x * self.left) * self.right. -/
def MultLeftRightMatrix.transMult (m : MultLeftRightMatrix) (x : List ℚ) : List ℚ :=
  vmul (m.A.transMult (vmul x m.left)) m.right

/-!  Elementary lemmas about the vector operations. -/

/-- Shifting an elementwise factor across the inner product. -/
theorem dot_vmul_assoc : ∀ a b c : List ℚ, dot (vmul a b) c = dot a (vmul b c)
  | [], _, _ => by simp [dot, vmul]
  | _ :: _, [], _ => by simp [dot, vmul]
  | _ :: _, _ :: _, [] => by simp [dot, vmul]
  | a :: as, b :: bs, c :: cs => by
    have ih := dot_vmul_assoc as bs cs
    simp [dot, vmul] at ih ⊢
    rw [ih]; ring

/-- Elementwise product is commutative. -/
theorem vmul_comm : ∀ a b : List ℚ, vmul a b = vmul b a
  | [], _ => by simp [vmul]
  | _ :: _, [] => by simp [vmul]
  | a :: as, b :: bs => by
    have ih := vmul_comm as bs
    simp [vmul] at ih ⊢
    exact ⟨mul_comm a b, ih⟩

/-- Multiplying elementwise with an all-ones vector truncates only. -/
theorem vmul_ones : ∀ (x : List ℚ) (n : ℕ), vmul x (List.replicate n 1) = x.take n
  | [], _ => by simp [vmul]
  | _ :: _, 0 => by simp [vmul]
  | x :: xs, n + 1 => by
    have ih := vmul_ones xs n
    simp [vmul, List.replicate] at ih ⊢
    exact ih

/-- Elementwise multiplication distributes over a linear combination. -/
theorem vmul_linComb : ∀ (a b : ℚ) (u v w : List ℚ),
    vmul (vadd (smul a u) (smul b v)) w =
      vadd (smul a (vmul u w)) (smul b (vmul v w))
  | _, _, [], _, _ => by simp [vmul, vadd, smul]
  | _, _, _ :: _, [], _ => by simp [vmul, vadd, smul]
  | _, _, _ :: _, _ :: _, [] => by simp [vmul, vadd, smul]
  | a, b, u :: us, v :: vs, w :: ws => by
    have ih := vmul_linComb a b us vs ws
    simp [vmul, vadd, smul] at ih ⊢
    refine ⟨by ring, ih⟩

theorem length_vmul (a b : List ℚ) : (vmul a b).length = min a.length b.length := by
  simp [vmul]

/--
Claim C1.  For a MultRightMatrix built from A and an explicit r with
len(r) = A.cols(), mult(x) returns A.mult(x * r); when r is omitted the
stored r is the all-ones vector of length A.cols() and, for every x of
length A.cols(), mult(x) = A.mult(x).
-/
theorem multRightMatrix_mult_spec (A : PGMat) (r x : List ℚ) :
    ((mkMultRightMatrix A none).r = List.replicate A.cols 1)
    ∧ (r.length = A.cols →
        (mkMultRightMatrix A (some r)).mult x = A.mult (vmul x r))
    ∧ (x.length = A.cols →
        (mkMultRightMatrix A none).mult x = A.mult x) := by
  refine ⟨rfl, fun _ => rfl, fun hx => ?_⟩
  show A.mult (vmul x (List.replicate A.cols 1)) = A.mult x
  rw [vmul_ones, ← hx, List.take_length]

/--
Cm05Matrix stored fields.  ew and EV are the eigen-decomposition delivered
by the external scipy.linalg.eigh, mul = sqrt(1/ew) with numpy's sqrt; both
externals enter the model as parameters of the constructor.
-/
structure Cm05Matrix where
  size : ℕ
  ew : List ℚ
  EV : List (List ℚ)
  mul : List ℚ
  A : List (List ℚ)
  verbose : Bool

/-- Row count of a dense matrix, shape[0]. -/
def shape0 (A : List (List ℚ)) : ℕ := A.length

/-- Column count of a dense matrix, shape[1] (rows all share it in numpy). -/
def shape1 (A : List (List ℚ)) : ℕ := (A.headD []).length

/--
Cm05Matrix.__init__: raises unless A is square; stores size = A.shape[0],
the eigen-decomposition (modelled by the parameter eigh) and
mul = sqrt(1/ew) (sqrt modelled by the parameter sqrtF).
-/
def mkCm05Matrix (A : List (List ℚ)) (eigh : List (List ℚ) → List ℚ × List (List ℚ))
    (sqrtF : ℚ → ℚ) (verbose : Bool) : Except String Cm05Matrix :=
  if shape0 A ≠ shape1 A then
    .error "Matrix must by square (and symmetric)!"
  else
    let ed := eigh A
    .ok ⟨shape0 A, ed.1, ed.2, ed.1.map (fun w => sqrtF (1 / w)), A, verbose⟩

/-- Cm05Matrix.rows: returns self.size. -/
def Cm05Matrix.rows (m : Cm05Matrix) : ℕ := m.size

/-- Cm05Matrix.cols: returns self.size. -/
def Cm05Matrix.cols (m : Cm05Matrix) : ℕ := m.size

/-- Cm05Matrix.mult: EV.dot((np.dot(x.T, EV) * mul).T) for a vector x. -/
def Cm05Matrix.mult (m : Cm05Matrix) (x : List ℚ) : List ℚ :=
  matVec m.EV (vmul (matVec m.EV.transpose x) m.mul)

/-- Cm05Matrix.transMult: return self.mult(x). -/
def Cm05Matrix.transMult (m : Cm05Matrix) (x : List ℚ) : List ℚ := m.mult x

/-!
State-passing method variants.  A Python bound method receives the instance
and may reassign its attributes; the translation returns the result
together with the post-call instance so that frame claims are statable.
None of the adapter method bodies contains an attribute assignment, hence
each returns the instance it received.
-/

/-- MultLeftMatrix.mult with explicit instance threading. -/
def MultLeftMatrix.multS (m : MultLeftMatrix) (x : List ℚ) :
    List ℚ × MultLeftMatrix := (m.mult x, m)

/-- MultLeftMatrix.transMult with explicit instance threading. -/
def MultLeftMatrix.transMultS (m : MultLeftMatrix) (x : List ℚ) :
    List ℚ × MultLeftMatrix := (m.transMult x, m)

/-- MultLeftMatrix.rows with explicit instance threading. -/
def MultLeftMatrix.rowsS (m : MultLeftMatrix) : ℕ × MultLeftMatrix := (m.rows, m)

/-- MultLeftMatrix.cols with explicit instance threading. -/
def MultLeftMatrix.colsS (m : MultLeftMatrix) : ℕ × MultLeftMatrix := (m.cols, m)

/-- MultRightMatrix.mult with explicit instance threading. -/
def MultRightMatrix.multS (m : MultRightMatrix) (x : List ℚ) :
    List ℚ × MultRightMatrix := (m.mult x, m)

/-- MultRightMatrix.transMult with explicit instance threading. -/
def MultRightMatrix.transMultS (m : MultRightMatrix) (x : List ℚ) :
    List ℚ × MultRightMatrix := (m.transMult x, m)

/-- MultRightMatrix.rows with explicit instance threading. -/
def MultRightMatrix.rowsS (m : MultRightMatrix) : ℕ × MultRightMatrix := (m.rows, m)

/-- MultRightMatrix.cols with explicit instance threading. -/
def MultRightMatrix.colsS (m : MultRightMatrix) : ℕ × MultRightMatrix := (m.cols, m)

/-- MultLeftRightMatrix.mult with explicit instance threading. -/
def MultLeftRightMatrix.multS (m : MultLeftRightMatrix) (x : List ℚ) :
    List ℚ × MultLeftRightMatrix := (m.mult x, m)

/-- MultLeftRightMatrix.transMult with explicit instance threading. -/
def MultLeftRightMatrix.transMultS (m : MultLeftRightMatrix) (x : List ℚ) :
    List ℚ × MultLeftRightMatrix := (m.transMult x, m)

/-- MultLeftRightMatrix.rows with explicit instance threading. -/
def MultLeftRightMatrix.rowsS (m : MultLeftRightMatrix) :
    ℕ × MultLeftRightMatrix := (m.rows, m)

/-- MultLeftRightMatrix.cols with explicit instance threading. -/
def MultLeftRightMatrix.colsS (m : MultLeftRightMatrix) :
    ℕ × MultLeftRightMatrix := (m.cols, m)

/-- Cm05Matrix.mult with explicit instance threading. -/
def Cm05Matrix.multS (m : Cm05Matrix) (x : List ℚ) :
    List ℚ × Cm05Matrix := (m.mult x, m)

/-- Cm05Matrix.transMult with explicit instance threading. -/
def Cm05Matrix.transMultS (m : Cm05Matrix) (x : List ℚ) :
    List ℚ × Cm05Matrix := (m.transMult x, m)

/-- Cm05Matrix.rows with explicit instance threading. -/
def Cm05Matrix.rowsS (m : Cm05Matrix) : ℕ × Cm05Matrix := (m.rows, m)

/-- Cm05Matrix.cols with explicit instance threading. -/
def Cm05Matrix.colsS (m : Cm05Matrix) : ℕ × Cm05Matrix := (m.cols, m)

/--
Claim C4.  The matrix adapters are stateless: mult, transMult, rows and
cols return the instance with every stored field (A, left, right, r, and
for Cm05Matrix ew, EV, mul, size) unchanged, for every input vector.
-/
theorem adapters_stateless :
    ∀ (m1 : MultLeftMatrix) (m2 : MultRightMatrix) (m3 : MultLeftRightMatrix)
      (m4 : Cm05Matrix) (x : List ℚ),
    (m1.multS x).2 = m1 ∧ (m1.transMultS x).2 = m1
    ∧ m1.rowsS.2 = m1 ∧ m1.colsS.2 = m1
    ∧ (m2.multS x).2 = m2 ∧ (m2.transMultS x).2 = m2
    ∧ m2.rowsS.2 = m2 ∧ m2.colsS.2 = m2
    ∧ (m3.multS x).2 = m3 ∧ (m3.transMultS x).2 = m3
    ∧ m3.rowsS.2 = m3 ∧ m3.colsS.2 = m3
    ∧ (m4.multS x).2 = m4 ∧ (m4.transMultS x).2 = m4
    ∧ m4.rowsS.2 = m4 ∧ m4.colsS.2 = m4 :=
  fun _ _ _ _ _ =>
    ⟨rfl, rfl, rfl, rfl, rfl, rfl, rfl, rfl, rfl, rfl, rfl, rfl, rfl, rfl, rfl, rfl⟩

/--
Claim C5.  Dimension queries delegate to the wrapped matrix: the three
composite adapters return A.rows() and A.cols(); Cm05Matrix returns the
row count of the wrapped square matrix for both queries.
-/
theorem adapters_dims_delegate (A : PGMat) (left right : List ℚ)
    (r : Option (List ℚ)) (vb : Bool)
    (B : List (List ℚ)) (eigh : List (List ℚ) → List ℚ × List (List ℚ))
    (sqrtF : ℚ → ℚ)
    (m1 : MultLeftMatrix) (m3 : MultLeftRightMatrix) (m4 : Cm05Matrix) :
    (mkMultLeftMatrix A left vb = .ok m1 → m1.rows = A.rows ∧ m1.cols = A.cols)
    ∧ ((mkMultRightMatrix A r).rows = A.rows
        ∧ (mkMultRightMatrix A r).cols = A.cols)
    ∧ (mkMultLeftRightMatrix A left right vb = .ok m3 →
        m3.rows = A.rows ∧ m3.cols = A.cols)
    ∧ (mkCm05Matrix B eigh sqrtF vb = .ok m4 →
        m4.rows = shape0 B ∧ m4.cols = shape0 B) := by
  refine ⟨?_, ?_, ?_, ?_⟩
  · intro h
    rw [mkMultLeftMatrix] at h
    split at h
    · exact absurd h (by simp)
    · cases h; exact ⟨rfl, rfl⟩
  · cases r <;> exact ⟨rfl, rfl⟩
  · intro h
    rw [mkMultLeftRightMatrix] at h
    split at h
    · exact absurd h (by simp)
    · split at h
      · exact absurd h (by simp)
      · cases h; exact ⟨rfl, rfl⟩
  · intro h
    rw [mkCm05Matrix] at h
    split at h
    · exact absurd h (by simp)
    · cases h; exact ⟨rfl, rfl⟩

/--
Claim C2.  For each composite adapter, transMult is the adjoint of mult with
respect to the inner product, assuming the wrapped matrix has this property
on vectors of the fitting lengths.  The length hypotheses on left and right
are the ones the adapter constructors enforce; the one on r is the
precondition from claim C1.
-/
theorem adapters_transMult_adjoint (A : PGMat) (left right r : List ℚ)
    (hAdj : ∀ u v : List ℚ, u.length = A.cols → v.length = A.rows →
      dot (A.mult u) v = dot u (A.transMult v))
    (hL : left.length = A.rows) (hR : right.length = A.cols)
    (hr : r.length = A.cols)
    (x y : List ℚ) (hx : x.length = A.cols) (hy : y.length = A.rows) :
    dot ((⟨A, left, false⟩ : MultLeftMatrix).mult x) y
      = dot x ((⟨A, left, false⟩ : MultLeftMatrix).transMult y)
    ∧ dot ((mkMultRightMatrix A (some r)).mult x) y
      = dot x ((mkMultRightMatrix A (some r)).transMult y)
    ∧ dot ((⟨A, left, right, false⟩ : MultLeftRightMatrix).mult x) y
      = dot x ((⟨A, left, right, false⟩ : MultLeftRightMatrix).transMult y) := by
  have hly : (vmul left y).length = A.rows := by
    rw [length_vmul, hL, hy, min_self]
  have hxr : (vmul x r).length = A.cols := by
    rw [length_vmul, hx, hr, min_self]
  refine ⟨?_, ?_, ?_⟩
  · show dot (vmul (A.mult x) left) y = dot x (A.transMult (vmul y left))
    rw [dot_vmul_assoc, hAdj x (vmul left y) hx hly, vmul_comm y left]
  · show dot (A.mult (vmul x r)) y = dot x (vmul (A.transMult y) r)
    rw [hAdj (vmul x r) y hxr hy, dot_vmul_assoc, vmul_comm r (A.transMult y)]
  · show dot (vmul (A.mult (vmul x right)) left) y
      = dot x (vmul (A.transMult (vmul y left)) right)
    have hxR : (vmul x right).length = A.cols := by
      rw [length_vmul, hx, hR, min_self]
    rw [dot_vmul_assoc, hAdj (vmul x right) (vmul left y) hxR hly,
      dot_vmul_assoc, vmul_comm y left, vmul_comm right (A.transMult (vmul left y))]

/--
Claim C3.  Each adapter's mult is linear whenever the wrapped matrix's mult
is linear on vectors of length A.cols(); the linear combination is taken
elementwise, as numpy does.
-/
theorem adapters_mult_linear (A : PGMat) (left right r : List ℚ)
    (hLin : ∀ (a b : ℚ) (u v : List ℚ), u.length = A.cols → v.length = A.cols →
      A.mult (vadd (smul a u) (smul b v))
        = vadd (smul a (A.mult u)) (smul b (A.mult v)))
    (hR : right.length = A.cols) (hr : r.length = A.cols)
    (a b : ℚ) (x y : List ℚ) (hx : x.length = A.cols) (hy : y.length = A.cols) :
    (⟨A, left, false⟩ : MultLeftMatrix).mult (vadd (smul a x) (smul b y))
      = vadd (smul a ((⟨A, left, false⟩ : MultLeftMatrix).mult x))
          (smul b ((⟨A, left, false⟩ : MultLeftMatrix).mult y))
    ∧ (mkMultRightMatrix A (some r)).mult (vadd (smul a x) (smul b y))
      = vadd (smul a ((mkMultRightMatrix A (some r)).mult x))
          (smul b ((mkMultRightMatrix A (some r)).mult y))
    ∧ (⟨A, left, right, false⟩ : MultLeftRightMatrix).mult (vadd (smul a x) (smul b y))
      = vadd (smul a ((⟨A, left, right, false⟩ : MultLeftRightMatrix).mult x))
          (smul b ((⟨A, left, right, false⟩ : MultLeftRightMatrix).mult y)) := by
  have hxr : (vmul x r).length = A.cols := by
    rw [length_vmul, hx, hr, min_self]
  have hyr : (vmul y r).length = A.cols := by
    rw [length_vmul, hy, hr, min_self]
  have hxR : (vmul x right).length = A.cols := by
    rw [length_vmul, hx, hR, min_self]
  have hyR : (vmul y right).length = A.cols := by
    rw [length_vmul, hy, hR, min_self]
  refine ⟨?_, ?_, ?_⟩
  · show vmul (A.mult (vadd (smul a x) (smul b y))) left
      = vadd (smul a (vmul (A.mult x) left)) (smul b (vmul (A.mult y) left))
    rw [hLin a b x y hx hy, vmul_linComb]
  · show A.mult (vmul (vadd (smul a x) (smul b y)) r)
      = vadd (smul a (A.mult (vmul x r))) (smul b (A.mult (vmul y r)))
    rw [vmul_linComb, hLin a b (vmul x r) (vmul y r) hxr hyr]
  · show vmul (A.mult (vmul (vadd (smul a x) (smul b y)) right)) left
      = vadd (smul a (vmul (A.mult (vmul x right)) left))
          (smul b (vmul (A.mult (vmul y right)) left))
    rw [vmul_linComb, hLin a b (vmul x right) (vmul y right) hxR hyR, vmul_linComb]

/-- Concrete wrapped matrix used by the evaluation witnesses. -/
def M2 : List (List ℚ) := [[1, 2], [3, 4]]

/-- The transpose of M2, written out. -/
def M2t : List (List ℚ) := [[1, 3], [2, 4]]

/-- A concrete PGMat wrapping M2 (mult by M2, transMult by its transpose). -/
def pgW : PGMat := ⟨matVec M2, matVec M2t, 2, 2⟩

/-- The concrete wrapped matrix pgW satisfies the adjoint property. -/
theorem pgW_adjoint : ∀ u v : List ℚ, u.length = pgW.cols → v.length = pgW.rows →
    dot (pgW.mult u) v = dot u (pgW.transMult v) := by
  intro u v hu hv
  obtain ⟨a, b, rfl⟩ := List.length_eq_two.mp hu
  obtain ⟨c, d, rfl⟩ := List.length_eq_two.mp hv
  show dot (matVec M2 [a, b]) [c, d] = dot [a, b] (matVec M2t [c, d])
  simp [matVec, M2, M2t, dot, vmul]
  ring

/-- The concrete wrapped matrix pgW is linear. -/
theorem pgW_linear : ∀ (a b : ℚ) (u v : List ℚ),
    u.length = pgW.cols → v.length = pgW.cols →
    pgW.mult (vadd (smul a u) (smul b v))
      = vadd (smul a (pgW.mult u)) (smul b (pgW.mult v)) := by
  intro a b u v hu hv
  obtain ⟨p, q, rfl⟩ := List.length_eq_two.mp hu
  obtain ⟨s, t, rfl⟩ := List.length_eq_two.mp hv
  show matVec M2 (vadd (smul a [p, q]) (smul b [s, t]))
    = vadd (smul a (matVec M2 [p, q])) (smul b (matVec M2 [s, t]))
  simp [matVec, M2, dot, vmul, vadd, smul]
  constructor <;> ring

/-- Claim C2 witness at the concrete matrix pgW. -/
theorem adapters_transMult_adjoint_witness :
    dot ((⟨pgW, [1, 2], false⟩ : MultLeftMatrix).mult [1, 2]) [3, 4]
      = dot [1, 2] ((⟨pgW, [1, 2], false⟩ : MultLeftMatrix).transMult [3, 4])
    ∧ dot ((mkMultRightMatrix pgW (some [5, 7])).mult [1, 2]) [3, 4]
      = dot [1, 2] ((mkMultRightMatrix pgW (some [5, 7])).transMult [3, 4])
    ∧ dot ((⟨pgW, [1, 2], [2, 3], false⟩ : MultLeftRightMatrix).mult [1, 2]) [3, 4]
      = dot [1, 2] ((⟨pgW, [1, 2], [2, 3], false⟩ : MultLeftRightMatrix).transMult [3, 4]) :=
  adapters_transMult_adjoint pgW [1, 2] [2, 3] [5, 7] pgW_adjoint rfl rfl rfl
    [1, 2] [3, 4] rfl rfl

/-- Claim C3 witness at the concrete matrix pgW. -/
theorem adapters_mult_linear_witness :
    (⟨pgW, [1, 2], false⟩ : MultLeftMatrix).mult (vadd (smul 2 [1, 2]) (smul 3 [4, 5]))
      = vadd (smul 2 ((⟨pgW, [1, 2], false⟩ : MultLeftMatrix).mult [1, 2]))
          (smul 3 ((⟨pgW, [1, 2], false⟩ : MultLeftMatrix).mult [4, 5]))
    ∧ (mkMultRightMatrix pgW (some [5, 7])).mult (vadd (smul 2 [1, 2]) (smul 3 [4, 5]))
      = vadd (smul 2 ((mkMultRightMatrix pgW (some [5, 7])).mult [1, 2]))
          (smul 3 ((mkMultRightMatrix pgW (some [5, 7])).mult [4, 5]))
    ∧ (⟨pgW, [1, 2], [2, 3], false⟩ : MultLeftRightMatrix).mult
          (vadd (smul 2 [1, 2]) (smul 3 [4, 5]))
      = vadd (smul 2 ((⟨pgW, [1, 2], [2, 3], false⟩ : MultLeftRightMatrix).mult [1, 2]))
          (smul 3 ((⟨pgW, [1, 2], [2, 3], false⟩ : MultLeftRightMatrix).mult [4, 5])) :=
  adapters_mult_linear pgW [1, 2] [2, 3] [5, 7] pgW_linear rfl rfl
    2 3 [1, 2] [4, 5] rfl rfl

/-- Concrete MultLeftMatrix for the evaluation witnesses. -/
def mLw : MultLeftMatrix := ⟨pgW, [1, 2], false⟩

/-- Concrete MultLeftRightMatrix for the evaluation witnesses. -/
def mLRw : MultLeftRightMatrix := ⟨pgW, [1, 2], [2, 3], false⟩

/-- Stand-in for the external eigh on the witness matrix. -/
def eighW : List (List ℚ) → List ℚ × List (List ℚ) := fun _ => ([1, 1], M2t)

/-- Stand-in for the external numpy sqrt. -/
def sqW : ℚ → ℚ := fun q => q

/-- Concrete Cm05Matrix as produced by mkCm05Matrix on M2 with eighW, sqW. -/
def cm05w : Cm05Matrix := ⟨2, [1, 1], M2t, [1, 1].map (fun w => sqW (1 / w)), M2, false⟩

/-- Claim C5 witness at the concrete adapters. -/
theorem adapters_dims_delegate_witness :
    mLw.rows = 2 ∧ mLw.cols = 2
    ∧ (mkMultRightMatrix pgW none).rows = 2
    ∧ (mkMultRightMatrix pgW none).cols = 2
    ∧ mLRw.rows = 2 ∧ mLRw.cols = 2
    ∧ cm05w.rows = 2 ∧ cm05w.cols = 2 :=
  have T := adapters_dims_delegate pgW [1, 2] [2, 3] none false M2 eighW sqW
    mLw mLRw cm05w
  ⟨(T.1 rfl).1, (T.1 rfl).2, T.2.1.1, T.2.1.2,
   (T.2.2.1 rfl).1, (T.2.2.1 rfl).2, (T.2.2.2 rfl).1, (T.2.2.2 rfl).2⟩

/-- Claim C1 witness at the concrete matrix pgW. -/
theorem multRightMatrix_mult_spec_witness :
    ((mkMultRightMatrix pgW (some [5, 7])).mult [1, 2] = pgW.mult (vmul [1, 2] [5, 7]))
    ∧ ((mkMultRightMatrix pgW none).mult [1, 2] = pgW.mult [1, 2]) :=
  ⟨(multRightMatrix_mult_spec pgW [5, 7] [1, 2]).2.1 rfl,
   (multRightMatrix_mult_spec pgW [5, 7] [1, 2]).2.2 rfl⟩

/-!
VES manager (src/python/pygimli/physics/ert/ves.py).  The external native
objects are modelled as configuration records: FOPState collects the calls
made on the DC1d forward operator, RInversion those made on pg.RInversion.
Running the inversion is the external engine's job and enters invert as an
opaque function parameter.  A Python raise becomes an Except.error; a raise
in the middle of a method discards the partially mutated state in this
model, which no claim observes.
-/

/-- Python value of a kwargs entry: float-like or boolean. -/
inductive KVal
  | num (q : ℚ)
  | bool (b : Bool)
deriving DecidableEq

/-- The z constructor argument: a discretisation array (smooth) or a layer
count (block). -/
inductive ZSpec
  | arr (zs : List ℚ)
  | nlay (n : ℚ)
deriving DecidableEq

/-- len(z) where the code expects the smooth array form; Python would raise
a TypeError on the number form, which no claim exercises. -/
def ZSpec.zLen : ZSpec → ℕ
  | .arr zs => zs.length
  | .nlay _ => 0

/-- z as a number where the code expects the block form; Python would build
an array instead on the array form, which no claim exercises. -/
def ZSpec.zNum : ZSpec → ℚ
  | .arr _ => 0
  | .nlay n => n

/-- Configuration record of the external DC1d forward operator: operator
kind, mesh kind and the region setStartValue / setParameters calls. -/
structure FOPState where
  kind : String
  meshKind : String
  region0Params : Option (ℚ × ℚ × ℚ × String) := none
  region1Params : Option (ℚ × ℚ × ℚ × String) := none
  region0Start : Option ℚ := none
  region1Start : Option ℚ := none
deriving DecidableEq

/-- Configuration record of the external pg.RInversion object, one field
per configuration call the manager makes on it. -/
structure RInversion where
  data : List ℚ
  transDataLog : Bool := false
  marquardt : Option KVal := none
  robust : Option KVal := none
  relError : Option ℚ := none
  lam : Option ℚ := none
  model0 : Option (List ℚ) := none
deriving DecidableEq

/-- The VESManager instance attributes. -/
structure VESManager where
  verbose : Bool
  type : String
  ab2 : List ℚ
  mn2 : List ℚ
  Z : ZSpec
  FOP : Option FOPState := none
  INV : Option RInversion := none
  startmodel : Option (List ℚ) := none
  thkBounds : List ℚ := [10, 1/10, 30]
  rhoBounds : List ℚ := [10, 1, 10000]
  trans : List String := ["log", "log"]
  dataTrans : Bool := false
  dataToFit : Option (List ℚ) := none
  resDistribution : Option (List ℚ) := none
deriving DecidableEq

/-- The external DC1dModelling constructor arguments recorded by simulate. -/
structure DC1dModelling where
  nlay : ℕ
  ab2 : List ℚ
  mn2 : List ℚ
deriving DecidableEq

/-- np.max of a vector (total model; claims never take the empty case). -/
def maxQ : List ℚ → ℚ
  | [] => 0
  | x :: xs => xs.foldl max x

/-- np.median: middle of the sorted vector, mean of the two middles for
even length (total model, 0 on the empty vector). -/
def npMedian (xs : List ℚ) : ℚ :=
  let s := xs.insertionSort (fun a b => a ≤ b)
  let n := s.length
  if n = 0 then 0
  else if n % 2 = 1 then s.getD (n / 2) 0
  else (s.getD (n / 2 - 1) 0 + s.getD (n / 2) 0) / 2

/-- dict.pop(k) without default: KeyError when the key is absent, else the
value and the dictionary without that key. -/
def popKey (kw : List (String × KVal)) (k : String) :
    Except String (KVal × List (String × KVal)) :=
  match kw.lookup k with
  | some v => .ok (v, kw.eraseP (fun p => p.1 == k))
  | none => .error ("KeyError: " ++ k)

/-- dict.pop(k, d): the value (key removed) when present, else the default. -/
def popKeyD (kw : List (String × KVal)) (k : String) (d : KVal) :
    KVal × List (String × KVal) :=
  match kw.lookup k with
  | some v => (v, kw.eraseP (fun p => p.1 == k))
  | none => (d, kw)

/--
VESManager.__init__: stores the arguments, defaults mn2 to ab2/3
elementwise when mn2 is None, and runs createModelTrans() with its default
bounds (FOP is still None, so applyModelTrans is not invoked).
-/
def VESManager.mkInit (ab2 : List ℚ) (z : ZSpec) (mn2 : Option (List ℚ))
    (type : String) (verbose : Bool) : VESManager :=
  { verbose := verbose
    type := type
    ab2 := ab2
    mn2 := match mn2 with
      | none => ab2.map (fun a => a / 3)
      | some m => m
    Z := z
    FOP := none
    INV := none
    startmodel := none
    thkBounds := [10, 1/10, 30]
    rhoBounds := [10, 1, 10000]
    trans := ["log", "log"]
    dataTrans := false
    dataToFit := none
    resDistribution := none }

/-- VESManager.applyModelTrans: raises without a forward operator, else
records the region setParameters calls for the current type. -/
def VESManager.applyModelTrans (st : VESManager) : Except String VESManager :=
  match st.FOP with
  | none => .error "initialize forward operator before appending proper boundaries for the model transformation"
  | some f =>
    if st.type = "smooth" then
      .ok { st with FOP := some { f with
        region0Params := some (st.rhoBounds.getD 0 0, st.rhoBounds.getD 1 0,
          st.rhoBounds.getD 2 0, st.trans.getD 1 "") } }
    else if st.type = "block" then
      .ok { st with FOP := some { f with
        region0Params := some (st.thkBounds.getD 0 0, st.thkBounds.getD 1 0,
          st.thkBounds.getD 2 0, st.trans.getD 0 ""),
        region1Params := some (st.rhoBounds.getD 0 0, st.rhoBounds.getD 1 0,
          st.rhoBounds.getD 2 0, st.trans.getD 1 "") } }
    else .ok st

/-- VESManager.createFOP: builds the forward operator and mesh for the
current type, then applyModelTrans; for any other type the Python body
reaches setMesh with an unbound mesh1D. -/
def VESManager.createFOP (st : VESManager) : Except String VESManager :=
  if st.type = "block" then
    VESManager.applyModelTrans { st with
      FOP := some { kind := "DC1dModelling", meshKind := "createMesh1DBlock" } }
  else if st.type = "smooth" then
    VESManager.applyModelTrans { st with
      FOP := some { kind := "DC1dRhoModelling", meshKind := "createMesh1D" } }
  else
    .error "UnboundLocalError: mesh1D referenced before assignment"

/-- VESManager.getDepth: np.max(self.ab2) / 3. -/
def VESManager.getDepth (st : VESManager) : ℚ := maxQ st.ab2 / 3

/-- VESManager.createStartModel. -/
def VESManager.createStartModel (st : VESManager) (data : List ℚ) : VESManager :=
  if st.type = "smooth" then
    { st with startmodel := some (List.replicate (st.Z.zLen + 1) (npMedian data)) }
  else
    { st with startmodel := some [st.getDepth / st.Z.zNum / 2, npMedian data] }

/--
VESManager.createINV: creates the forward operator when missing, the
RInversion instance, applies the data transformation and, for the block
type, pops 'lambdaFactor' without a default (printing it), then pops it
again with default 0.8 into setMarquardtScheme and pops 'robust'; finally
sets the relative error and the start model.
-/
def VESManager.createINV (st : VESManager) (data : List ℚ) (relErrorP : ℚ)
    (startmodel : Option (List ℚ)) (kwargs : List (String × KVal)) :
    Except String VESManager :=
  match (if st.FOP = none then st.createFOP else .ok st) with
  | .error e => .error e
  | .ok st1 =>
    let st2 : VESManager := { st1 with dataTrans := true }
    let inv1 : RInversion := { data := data, transDataLog := true }
    match (if st2.type = "block" then
        match popKey kwargs "lambdaFactor" with
        | .error e => .error e
        | .ok pr =>
          let p2 := popKeyD pr.2 "lambdaFactor" (KVal.num (8 / 10))
          let p3 := popKeyD p2.2 "robust" (KVal.bool false)
          Except.ok { inv1 with marquardt := some p2.1, robust := some p3.1 }
      else Except.ok inv1 : Except String RInversion) with
    | .error e => .error e
    | .ok inv2 =>
      let inv3 : RInversion := { inv2 with relError := some (relErrorP / 100) }
      let st3 := if startmodel.isSome then { st2 with startmodel := startmodel } else st2
      let st4 := if st3.startmodel = none then st3.createStartModel data else st3
      if st4.type = "smooth" then
        .ok { st4 with INV := some { inv3 with model0 := st4.startmodel } }
      else
        let sm := st4.startmodel.getD []
        let f := st4.FOP.getD { kind := "", meshKind := "" }
        .ok { st4 with
          FOP := some { f with
            region0Start := some (sm.getD 0 0)
            region1Start := some (sm.getD 1 0) }
          INV := some inv3 }

/--
VESManager.invert: records dataToFit, calls createINV only when self.INV
is None, then either runChi1 (smooth with lam None) or setLambda followed
by run.  The external run and runChi1 enter as opaque parameters.
-/
def VESManager.invert (st : VESManager) (data : List ℚ)
    (startmodel : Option (List ℚ)) (relErrorP : ℚ) (lam : Option ℚ)
    (kwargs : List (String × KVal))
    (run runChi1 : RInversion → List ℚ) : Except String VESManager :=
  let st0 : VESManager := { st with dataToFit := some data }
  match (if st0.INV = none then st0.createINV data relErrorP startmodel kwargs
         else .ok st0) with
  | .error e => .error e
  | .ok st1 =>
    match st1.INV with
    | none => .error "unreachable: createINV always sets INV"
    | some inv =>
      if st1.type = "smooth" ∧ lam = none then
        .ok { st1 with resDistribution := some (runChi1 inv) }
      else
        let lamv := lam.getD 1000
        let inv2 : RInversion := { inv with lam := some lamv }
        .ok { st1 with INV := some inv2, resDistribution := some (run inv2) }

/--
VESManager.simulate (static): defaults mn2 to ab2/3 when None, builds
DC1dModelling(len(res), ab2, mn2), computes the response on thk + res
(list concatenation) and multiplies elementwise with the noise factor.
The external response and randn enter as parameters.
-/
def VESManager.simulate (synmodel : List (List ℚ)) (ab2 : List ℚ)
    (mn2 : Option (List ℚ)) (errPerc : ℚ)
    (response : DC1dModelling → List ℚ → List ℚ) (randn : ℕ → List ℚ) :
    DC1dModelling × List ℚ :=
  let thk := synmodel.getD 0 []
  let res := synmodel.getD 1 []
  let mn2v := match mn2 with
    | none => ab2.map (fun a => a / 3)
    | some m => m
  let FOP : DC1dModelling := ⟨res.length, ab2, mn2v⟩
  let syndata := response FOP (thk ++ res)
  (FOP, vmul syndata ((randn syndata.length).map (fun g => g * errPerc / 100 + 1)))

/-- INV attribute of a method outcome (none when the call raised). -/
def invOf : Except String VESManager → Option RInversion
  | .ok s => s.INV
  | .error _ => none

/-- FOP attribute of a method outcome. -/
def fopOf : Except String VESManager → Option FOPState
  | .ok s => s.FOP
  | .error _ => none

/-- startmodel attribute of a method outcome. -/
def smOf : Except String VESManager → Option (List ℚ)
  | .ok s => s.startmodel
  | .error _ => none

/-- Whether a method outcome is a raise. -/
def isErrE : Except String VESManager → Bool
  | .ok _ => false
  | .error _ => true

/-- The Marquardt-scheme argument recorded on the INV of an outcome. -/
def marqOf : Except String VESManager → Option KVal
  | .ok s => match s.INV with
    | some i => i.marquardt
    | none => none
  | .error _ => none

/--
Claim C6.  mn2 defaults to ab2/3 elementwise when omitted, both in the
constructor and in simulate, and an explicit mn2 is used unchanged.
-/
theorem vesmanager_mn2_default (ab2 : List ℚ) (z : ZSpec) (m : List ℚ)
    (ty : String) (vb : Bool) (sm : List (List ℚ)) (e : ℚ)
    (resp : DC1dModelling → List ℚ → List ℚ) (rnd : ℕ → List ℚ) :
    (VESManager.mkInit ab2 z none ty vb).mn2 = ab2.map (fun a => a / 3)
    ∧ (VESManager.mkInit ab2 z (some m) ty vb).mn2 = m
    ∧ (VESManager.simulate sm ab2 none e resp rnd).1.mn2 = ab2.map (fun a => a / 3)
    ∧ (VESManager.simulate sm ab2 (some m) e resp rnd).1.mn2 = m :=
  ⟨rfl, rfl, rfl, rfl⟩

/-- A key that is not among the keys of an association list looks up to
none. -/
theorem lookup_none_of_not_mem :
    ∀ (kw : List (String × KVal)) (k : String),
      k ∉ kw.map Prod.fst → kw.lookup k = none
  | [], _, _ => rfl
  | (a, v) :: rest, k, h => by
    have hka : ¬(k = a) := fun hh => h (by simp [hh])
    have hrest : k ∉ rest.map Prod.fst := fun hh => h (by simp [hh])
    simp [List.lookup, beq_false_of_ne hka, lookup_none_of_not_mem rest k hrest]

/-- Popping a key from an association list with pairwise distinct keys
removes it: a second lookup finds nothing. -/
theorem lookup_eraseKey :
    ∀ (kw : List (String × KVal)) (k : String),
      (kw.map Prod.fst).Nodup →
      (kw.eraseP (fun p => p.1 == k)).lookup k = none
  | [], _, _ => rfl
  | (a, v) :: rest, k, h => by
    rw [List.map_cons, List.nodup_cons] at h
    by_cases hak : a = k
    · have : ((a, v) :: rest).eraseP (fun p => p.1 == k) = rest := by
        simp [List.eraseP_cons, hak]
      rw [this]
      exact lookup_none_of_not_mem rest k (hak ▸ h.1)
    · have : ((a, v) :: rest).eraseP (fun p => p.1 == k)
        = (a, v) :: rest.eraseP (fun p => p.1 == k) := by
        simp [List.eraseP_cons, beq_false_of_ne hak]
      rw [this]
      have hka : ¬(k = a) := fun hh => hak hh.symm
      simp only [List.lookup, beq_false_of_ne hka]
      exact lookup_eraseKey rest k h.2

/-- createStartModel only writes the startmodel attribute; the type is
preserved. -/
theorem type_createStartModel (st : VESManager) (d : List ℚ) :
    (st.createStartModel d).type = st.type := by
  unfold VESManager.createStartModel
  split <;> rfl

/-- Concrete partially-configured inversion object for the C7 input. -/
def inv0 : RInversion := { data := [1] }

/-- Concrete block-type VESManager whose INV attribute is already set. -/
def st7 : VESManager :=
  { verbose := true
    type := "block"
    ab2 := [1]
    mn2 := [1]
    Z := ZSpec.nlay 3
    INV := some inv0 }

/-- Opaque stand-in for the external inversion run. -/
def run0 : RInversion → List ℚ := fun _ => []

/--
Claim C7 counterexample.  The claim states that a call of invert on a
manager whose INV is already set leaves the INV object unchanged (only
run).  On the concrete block-type manager st7 the call executes
INV.setLambda(1000.0), so the stored INV differs afterwards: the claim as
stated is false.
-/
theorem vesmanager_invert_unchanged_cex :
    invOf (st7.invert [2] none 3 none [] run0 run0) ≠ some inv0 := by decide

/--
Claim C7, amended.  invert constructs the inversion instance via createINV
only when self.INV is None.  When self.INV is already set, the existing
object is reused, not reconstructed; the arguments startmodel, relErrorP
and the additional kwargs have no effect on the call at all; FOP and the
stored start model are untouched; and the only change applied to the INV
object before running it is setLambda(lam or 1000.0) in the non-(smooth
with lam None) case.
-/
theorem vesmanager_invert_reuses_inv (st : VESManager) (i : RInversion)
    (h : st.INV = some i) (data : List ℚ) (sm sm' : Option (List ℚ))
    (re re' : ℚ) (lam : Option ℚ) (kw kw' : List (String × KVal))
    (run runChi1 : RInversion → List ℚ) :
    st.invert data sm re lam kw run runChi1
      = st.invert data sm' re' lam kw' run runChi1
    ∧ invOf (st.invert data sm re lam kw run runChi1)
      = some (if st.type = "smooth" ∧ lam = none then i
              else { i with lam := some (lam.getD 1000) })
    ∧ fopOf (st.invert data sm re lam kw run runChi1) = st.FOP
    ∧ smOf (st.invert data sm re lam kw run runChi1) = st.startmodel := by
  have e : ∀ (a : Option (List ℚ)) (b : ℚ) (c : List (String × KVal)),
      st.invert data a b lam c run runChi1 =
        (if st.type = "smooth" ∧ lam = none then
          .ok { st with
            dataToFit := some data
            resDistribution := some (runChi1 i) }
         else
          .ok { st with
            dataToFit := some data
            INV := some { i with lam := some (lam.getD 1000) }
            resDistribution := some (run { i with lam := some (lam.getD 1000) }) }) := by
    intro a b c
    simp [VESManager.invert, h]
  refine ⟨by rw [e, e], ?_, ?_, ?_⟩ <;> rw [e sm re kw] <;>
    by_cases hc : st.type = "smooth" ∧ lam = none <;>
    simp [hc, invOf, fopOf, smOf, h]

/-- Claim C7 witness: the amended statement evaluated on st7. -/
theorem vesmanager_invert_reuses_inv_witness :
    st7.invert [2] none 3 none [] run0 run0
      = st7.invert [2] (some [9]) 4 none [("robust", KVal.bool true)] run0 run0
    ∧ invOf (st7.invert [2] none 3 none [] run0 run0)
      = some (if st7.type = "smooth" ∧ (none : Option ℚ) = none then inv0
              else { inv0 with lam := some ((none : Option ℚ).getD 1000) })
    ∧ fopOf (st7.invert [2] none 3 none [] run0 run0) = st7.FOP
    ∧ smOf (st7.invert [2] none 3 none [] run0 run0) = st7.startmodel :=
  vesmanager_invert_reuses_inv st7 inv0 rfl [2] none (some [9]) 3 4 none []
    [("robust", KVal.bool true)] run0 run0

/--
Claim C8.  For a block-type manager, createINV raises KeyError exactly when
the keyword argument lambdaFactor is absent; and when it is present, the
value recorded by setMarquardtScheme is the default 0.8, not the supplied
value, because the unguarded pop already consumed the key.  The kwargs
dictionary has pairwise distinct keys.
-/
theorem createINV_lambdaFactor_bug (st : VESManager) (hty : st.type = "block")
    (data : List ℚ) (re : ℚ) (sm : Option (List ℚ))
    (kw : List (String × KVal)) (hnd : (kw.map Prod.fst).Nodup) :
    (isErrE (st.createINV data re sm kw) = (kw.lookup "lambdaFactor").isNone)
    ∧ ((kw.lookup "lambdaFactor").isSome = true →
        marqOf (st.createINV data re sm kw) = some (KVal.num (8 / 10))) := by
  unfold VESManager.createINV
  have hbs : ¬(("block" : String) = "smooth") := by decide
  have hLE := lookup_eraseKey kw "lambdaFactor" hnd
  cases hL : kw.lookup "lambdaFactor" with
  | none =>
    cases hF : st.FOP <;>
      simp [hF, VESManager.createFOP, VESManager.applyModelTrans, hty, hbs,
        popKey, hL, isErrE, marqOf]
  | some v =>
    cases hF : st.FOP <;>
      simp [hF, VESManager.createFOP, VESManager.applyModelTrans, hty, hbs,
        popKey, hL, popKeyD, hLE, isErrE, marqOf,
        type_createStartModel, apply_ite VESManager.type, ite_self]

/-- Claim C8 witness on the concrete block-type manager st7. -/
theorem createINV_lambdaFactor_bug_witness :
    isErrE (st7.createINV [1] 3 none []) = true
    ∧ isErrE (st7.createINV [1] 3 none [("lambdaFactor", KVal.num 2)]) = false
    ∧ marqOf (st7.createINV [1] 3 none [("lambdaFactor", KVal.num 2)])
        = some (KVal.num (8 / 10)) :=
  ⟨(createINV_lambdaFactor_bug st7 rfl [1] 3 none [] (by decide)).1,
   (createINV_lambdaFactor_bug st7 rfl [1] 3 none
      [("lambdaFactor", KVal.num 2)] (by decide)).1,
   (createINV_lambdaFactor_bug st7 rfl [1] 3 none
      [("lambdaFactor", KVal.num 2)] (by decide)).2 rfl⟩

/-!
Data viewers (src/python/pygimli/mplviewer/dataview.py).
-/

/-- Python runtime value, as far as the modelled code needs it. -/
inductive PyV
  | pynone
  | pystr (s : String)
deriving DecidableEq

/-- CPythons identity test between the modelled values: None is a
singleton, and equal string literals of one code object are interned.
The code only ever compares a string literal against None. -/
def pyIs : PyV → PyV → Bool
  | .pynone, .pynone => true
  | .pystr a, .pystr b => a == b
  | _, _ => false

/-- Opaque matplotlib axes handle. -/
structure MplAxes where
  idx : ℕ
deriving DecidableEq

/-- np.min of a vector (total model; values are not observed by the
claim). -/
def minQ : List ℚ → ℚ
  | [] => 0
  | x :: xs => xs.foldl min x

/--
patchMatrix up to the ax.add_collection call.  The first component of the
result records whether plt.subplots allocated a new figure; the second is
the outcome: the axis used, or the AttributeError that calling
add_collection on None produces.  The guard in the source is the literal
comparison sAxIsNone, comparing the string constant to None.
-/
def patchMatrix (A : List (List ℚ)) (ax : Option MplAxes)
    (cMin cMax : Option ℚ) (logScale : Option Bool) (dx : ℚ) :
    Bool × Except String MplAxes :=
  let mat := A.flatten.filter (fun v => decide (v ≠ 0))
  let cMinV := cMin.getD (minQ mat)
  let cMaxV := cMax.getD (maxQ mat)
  let logS := logScale.getD (decide (0 < cMinV))
  let _norm := (logS, cMinV, cMaxV, dx)
  let chosen := if pyIs (PyV.pystr "ax") PyV.pynone
    then (some (MplAxes.mk 0), true)
    else (ax, false)
  match chosen.1 with
  | none => (chosen.2,
      .error "AttributeError: NoneType object has no attribute add_collection")
  | some a => (chosen.2, .ok a)

/--
Claim C9.  The guard compares the string literal to None, which is always
false, so patchMatrix never creates a new figure; with ax=None (or
omitted) it reaches ax.add_collection on None and raises instead of
allocating a fresh axis, so no plot is produced.
-/
theorem patchMatrix_never_new_figure (A : List (List ℚ)) (ax : Option MplAxes)
    (cMin cMax : Option ℚ) (logScale : Option Bool) (dx : ℚ) :
    pyIs (PyV.pystr "ax") PyV.pynone = false
    ∧ (patchMatrix A ax cMin cMax logScale dx).1 = false
    ∧ (patchMatrix A none cMin cMax logScale dx).2
      = .error "AttributeError: NoneType object has no attribute add_collection" := by
  refine ⟨rfl, ?_, rfl⟩
  cases ax <;> rfl

/-- np.unique: the sorted list of the distinct values. -/
def usort (xs : List ℚ) : List ℚ :=
  (xs.dedup).insertionSort (fun a b => a ≤ b)

/-- Position of a value in the enumeration dictionary built from a unique
vector, xmap[v]. -/
def mIdx (u : List ℚ) (v : ℚ) : ℕ := u.indexOf v

/-- Matrix entry A[r, c] (0 outside the allocated shape). -/
def mget (A : List (List ℚ)) (r c : ℕ) : ℚ := (A.getD r []).getD c 0

/-- Matrix entry assignment A[r, c] = v. -/
def mset (A : List (List ℚ)) (r c : ℕ) (v : ℚ) : List (List ℚ) :=
  A.set r ((A.getD r []).set c v)

/-- np.zeros((nr, nc)). -/
def zerosM (nr nc : ℕ) : List (List ℚ) :=
  List.replicate nr (List.replicate nc 0)

/-- The write loop of generateMatrix: for each index i it assigns
A[ymap[yvec[i]], xmap[xvec[i]]] = vals[i] (the inot bookkeeping only
feeds a print and is dropped). -/
def genLoop (xv yv vals xm ym : List ℚ) : List ℕ → List (List ℚ) → List (List ℚ)
  | [], A => A
  | i :: is, A =>
    genLoop xv yv vals xm ym is
      (mset A (mIdx ym (yv.getD i 0)) (mIdx xm (xv.getD i 0)) (vals.getD i 0))

/-- Result triple of generateMatrix; the two maps are kept as the unique
sorted key vectors, the dictionary sending a key to its index is mIdx. -/
structure GenResult where
  A : List (List ℚ)
  xmap : List ℚ
  ymap : List ℚ
deriving DecidableEq

/-- generateMatrix from dataview.py. -/
def generateMatrix (xv yv vals : List ℚ) (full : Bool) : GenResult :=
  let xm := if full then usort (xv ++ yv) else usort xv
  let ym := if full then usort (xv ++ yv) else usort yv
  let nshow := min (min xv.length yv.length) vals.length
  ⟨genLoop xv yv vals xm ym (List.range nshow) (zerosM ym.length xm.length),
   xm, ym⟩

/-- Whether write index i targets cell (r, c): the specification-side
predicate for the last-writer-wins description. -/
def hitP (xv yv xm ym : List ℚ) (r c : ℕ) (i : ℕ) : Bool :=
  decide (mIdx ym (yv.getD i 0) = r) && decide (mIdx xm (xv.getD i 0) = c)

/-- Last element of a list satisfying p, specification side. -/
def lastHit (p : ℕ → Bool) : List ℕ → Option ℕ
  | [] => none
  | i :: is =>
    match lastHit p is with
    | some j => some j
    | none => if p i then some i else none

/-- getD after set at the same in-range position. -/
theorem getD_set_self {α : Type} :
    ∀ (l : List α) (i : ℕ) (v d : α), i < l.length → (l.set i v).getD i d = v
  | [], _, _, _, h => absurd h (by simp)
  | _ :: _, 0, _, _, _ => rfl
  | x :: xs, i + 1, v, d, h => by
    show (x :: xs.set i v).getD (i + 1) d = v
    rw [List.getD_cons_succ]
    exact getD_set_self xs i v d (by simpa using h)

/-- getD after set at a different position. -/
theorem getD_set_ne {α : Type} :
    ∀ (l : List α) (i j : ℕ) (v d : α), i ≠ j → (l.set i v).getD j d = l.getD j d
  | [], _, _, _, _, _ => rfl
  | _ :: _, 0, 0, _, _, hij => absurd rfl hij
  | x :: xs, 0, j + 1, v, d, _ => by
    show (v :: xs).getD (j + 1) d = (x :: xs).getD (j + 1) d
    rw [List.getD_cons_succ, List.getD_cons_succ]
  | x :: xs, i + 1, 0, v, d, _ => rfl
  | x :: xs, i + 1, j + 1, v, d, hij => by
    show (x :: xs.set i v).getD (j + 1) d = (x :: xs).getD (j + 1) d
    rw [List.getD_cons_succ, List.getD_cons_succ]
    exact getD_set_ne xs i j v d (fun he => hij (by rw [he]))

/-- getD on a replicate is the repeated value or the default. -/
theorem getD_replicate_or {α : Type} :
    ∀ (n i : ℕ) (x d : α),
      (List.replicate n x).getD i d = x ∨ (List.replicate n x).getD i d = d
  | 0, _, _, _ => Or.inr rfl
  | _ + 1, 0, _, _ => Or.inl rfl
  | n + 1, i + 1, x, d => by
    rw [List.replicate_succ, List.getD_cons_succ]
    exact getD_replicate_or n i x d

/-- The zero matrix reads 0 everywhere (also outside its shape, by the
getD default). -/
theorem mget_zerosM (nr nc r c : ℕ) : mget (zerosM nr nc) r c = 0 := by
  unfold mget zerosM
  rcases getD_replicate_or nr r (List.replicate nc (0 : ℚ)) [] with h | h <;> rw [h]
  · rcases getD_replicate_or nc c (0 : ℚ) 0 with h2 | h2 <;> rw [h2]
  · rfl

/-- mset does not change the number of rows. -/
theorem length_mset (A : List (List ℚ)) (r c : ℕ) (v : ℚ) :
    (mset A r c v).length = A.length := by
  simp [mset]

/-- mset keeps every row at its width when the target row exists. -/
theorem rows_mset (A : List (List ℚ)) (r c : ℕ) (v : ℚ) (w : ℕ)
    (hw : ∀ row ∈ A, row.length = w) (hr : r < A.length) :
    ∀ row ∈ mset A r c v, row.length = w := by
  intro row hrow
  rcases List.mem_or_eq_of_mem_set hrow with h | h
  · exact hw row h
  · subst h
    rw [List.length_set]
    apply hw
    rw [List.getD_eq_getElem A [] hr]
    exact List.getElem_mem hr

/-- An in-range getD is an element. -/
theorem getD_mem {α : Type} :
    ∀ (l : List α) (i : ℕ) (d : α), i < l.length → l.getD i d ∈ l
  | [], _, _, h => absurd h (by simp)
  | x :: xs, 0, _, _ => by simp
  | x :: xs, i + 1, d, h => by
    rw [List.getD_cons_succ]
    exact List.mem_cons_of_mem x (getD_mem xs i d (by simpa using h))

/-- Membership in the unique sorted vector. -/
theorem mem_usort (a : ℚ) (l : List ℚ) : a ∈ usort l ↔ a ∈ l := by
  simp [usort, List.mem_insertionSort, List.mem_dedup]

/-- The write loop preserves the matrix shape. -/
theorem genLoop_shape (xv yv vals xm ym : List ℚ) :
    ∀ (is : List ℕ) (A : List (List ℚ)),
      A.length = ym.length →
      (∀ row ∈ A, row.length = xm.length) →
      (∀ i ∈ is, yv.getD i 0 ∈ ym) →
      (genLoop xv yv vals xm ym is A).length = ym.length
      ∧ ∀ row ∈ genLoop xv yv vals xm ym is A, row.length = xm.length
  | [], A, hA, hR, _ => ⟨hA, hR⟩
  | i :: is, A, hA, hR, hM => by
    have hri : mIdx ym (yv.getD i 0) < A.length := by
      rw [hA]
      exact List.indexOf_lt_length.mpr (hM i (by simp))
    exact genLoop_shape xv yv vals xm ym is _
      (by rw [length_mset, hA])
      (rows_mset A _ _ _ _ hR hri)
      (fun j hj => hM j (by simp [hj]))

/-- The write loop computes last-writer-wins cell values. -/
theorem genLoop_mget (xv yv vals xm ym : List ℚ) :
    ∀ (is : List ℕ) (A : List (List ℚ)) (r c : ℕ),
      A.length = ym.length →
      (∀ row ∈ A, row.length = xm.length) →
      (∀ i ∈ is, yv.getD i 0 ∈ ym ∧ xv.getD i 0 ∈ xm) →
      mget (genLoop xv yv vals xm ym is A) r c =
        match lastHit (hitP xv yv xm ym r c) is with
        | some j => vals.getD j 0
        | none => mget A r c
  | [], _, _, _, _, _, _ => rfl
  | i :: is, A, r, c, hA, hRows, hMem => by
    have hy : yv.getD i 0 ∈ ym := (hMem i (by simp)).1
    have hx : xv.getD i 0 ∈ xm := (hMem i (by simp)).2
    have hri : mIdx ym (yv.getD i 0) < A.length := by
      rw [hA]
      exact List.indexOf_lt_length.mpr hy
    have hci : mIdx xm (xv.getD i 0) < (A.getD (mIdx ym (yv.getD i 0)) []).length := by
      rw [hRows _ (getD_mem A _ [] hri)]
      exact List.indexOf_lt_length.mpr hx
    have ih := genLoop_mget xv yv vals xm ym is
      (mset A (mIdx ym (yv.getD i 0)) (mIdx xm (xv.getD i 0)) (vals.getD i 0)) r c
      (by rw [length_mset, hA])
      (rows_mset A _ _ _ _ hRows hri)
      (fun j hj => hMem j (by simp [hj]))
    show mget (genLoop xv yv vals xm ym is _) r c = _
    rw [ih]
    cases hLast : lastHit (hitP xv yv xm ym r c) is with
    | some j => simp [lastHit, hLast]
    | none =>
      simp only [lastHit, hLast]
      by_cases hp : hitP xv yv xm ym r c i = true
      · rw [if_pos hp]
        have hrc := hp
        rw [hitP, Bool.and_eq_true, decide_eq_true_iff, decide_eq_true_iff] at hrc
        rw [← hrc.1, ← hrc.2]
        show mget (mset A _ _ _) _ _ = vals.getD i 0
        unfold mget mset
        rw [getD_set_self A _ _ [] hri, getD_set_self _ _ _ 0 hci]
      · rw [if_neg hp]
        have hrc : ¬(mIdx ym (yv.getD i 0) = r ∧ mIdx xm (xv.getD i 0) = c) := by
          intro hand
          exact hp (by rw [hitP, Bool.and_eq_true, decide_eq_true_iff,
            decide_eq_true_iff]; exact hand)
        show mget (mset A _ _ _) r c = mget A r c
        unfold mget mset
        by_cases hr2 : mIdx ym (yv.getD i 0) = r
        · have hc2 : mIdx xm (xv.getD i 0) ≠ c := fun hcc => hrc ⟨hr2, hcc⟩
          rw [← hr2, getD_set_self A _ _ [] hri, getD_set_ne _ _ _ _ _ hc2]
        · rw [getD_set_ne A _ _ _ _ hr2]

/-- lastHit over a list with one element appended. -/
theorem lastHit_append_single (p : ℕ → Bool) :
    ∀ (l : List ℕ) (i : ℕ),
      lastHit p (l ++ [i]) = if p i then some i else lastHit p l
  | [], i => rfl
  | a :: l, i => by
    show (match lastHit p (l ++ [i]) with
      | some j => some j
      | none => if p a then some a else none) = _
    rw [lastHit_append_single p l i]
    by_cases hp : p i
    · rw [if_pos hp, if_pos hp]
    · rw [if_neg hp, if_neg hp]
      rfl

/-- On an initial segment of the naturals, lastHit returns the largest
index satisfying the predicate. -/
theorem lastHit_range_maximal (p : ℕ → Bool) :
    ∀ (n j : ℕ), lastHit p (List.range n) = some j →
      p j = true ∧ j < n ∧ ∀ k, k < n → j < k → p k = false
  | 0, j, h => by simp [List.range_zero, lastHit] at h
  | n + 1, j, h => by
    rw [List.range_succ, lastHit_append_single] at h
    by_cases hp : p n
    · rw [if_pos hp] at h
      injection h with hj
      subst hj
      refine ⟨hp, by omega, fun k hk hjk => ?_⟩
      exact absurd hjk (by omega)
    · rw [if_neg hp] at h
      have ih := lastHit_range_maximal p n j h
      refine ⟨ih.1, Nat.lt_succ_of_lt ih.2.1, fun k hk hjk => ?_⟩
      rcases Nat.lt_succ_iff_lt_or_eq.mp hk with hk2 | hk2
      · exact ih.2.2 k hk2 hjk
      · subst hk2
        exact Bool.eq_false_iff.mpr hp

/--
Claim C10.  generateMatrix returns a matrix of shape
(len(ymap), len(xmap)); every cell hit by some write index below nshow
holds the value of the last (largest) such index, every other cell is 0;
lastHit on an index range indeed picks the largest satisfying index; and
with full=True the two maps are one shared sorted unique enumeration of
xvec and yvec combined, usort being sorted, duplicate-free and
membership-preserving.
-/
theorem generateMatrix_lastWriterWins (xv yv vals : List ℚ) (full : Bool) :
    ((generateMatrix xv yv vals full).A.length
        = (generateMatrix xv yv vals full).ymap.length
      ∧ ∀ row ∈ (generateMatrix xv yv vals full).A,
          row.length = (generateMatrix xv yv vals full).xmap.length)
    ∧ (∀ r c : ℕ,
        mget (generateMatrix xv yv vals full).A r c =
          match lastHit
              (hitP xv yv (generateMatrix xv yv vals full).xmap
                (generateMatrix xv yv vals full).ymap r c)
              (List.range (min (min xv.length yv.length) vals.length)) with
          | some j => vals.getD j 0
          | none => 0)
    ∧ (∀ (p : ℕ → Bool) (n j : ℕ), lastHit p (List.range n) = some j →
        p j = true ∧ j < n ∧ ∀ k, k < n → j < k → p k = false)
    ∧ (generateMatrix xv yv vals true).xmap = usort (xv ++ yv)
    ∧ (generateMatrix xv yv vals true).ymap = usort (xv ++ yv)
    ∧ ∀ w : List ℚ, (usort w).Sorted (fun a b => a ≤ b) ∧ (usort w).Nodup
        ∧ ∀ q : ℚ, q ∈ usort w ↔ q ∈ w := by
  have hmem : ∀ i ∈ List.range (min (min xv.length yv.length) vals.length),
      yv.getD i 0 ∈ (generateMatrix xv yv vals full).ymap
      ∧ xv.getD i 0 ∈ (generateMatrix xv yv vals full).xmap := by
    intro i hi
    rw [List.mem_range] at hi
    have hiy : i < yv.length :=
      lt_of_lt_of_le hi (le_trans (min_le_left _ _) (min_le_right _ _))
    have hix : i < xv.length :=
      lt_of_lt_of_le hi (le_trans (min_le_left _ _) (min_le_left _ _))
    cases full <;>
      exact ⟨(mem_usort _ _).mpr (by
          first
            | exact getD_mem yv i 0 hiy
            | exact List.mem_append_right xv (getD_mem yv i 0 hiy)),
        (mem_usort _ _).mpr (by
          first
            | exact getD_mem xv i 0 hix
            | exact List.mem_append_left yv (getD_mem xv i 0 hix))⟩
  have hshape := genLoop_shape xv yv vals
    (generateMatrix xv yv vals full).xmap (generateMatrix xv yv vals full).ymap
    (List.range (min (min xv.length yv.length) vals.length))
    (zerosM (generateMatrix xv yv vals full).ymap.length
      (generateMatrix xv yv vals full).xmap.length)
    (by simp [zerosM])
    (by intro row hrow
        rw [List.eq_of_mem_replicate hrow]
        simp)
    (fun i hi => (hmem i hi).1)
  refine ⟨?_, ?_, fun p n j h => lastHit_range_maximal p n j h, rfl, rfl,
    fun w => ⟨List.sorted_insertionSort _ _,
      ((List.perm_insertionSort _ _).nodup_iff).mpr (List.nodup_dedup _),
      fun q => mem_usort q w⟩⟩
  · exact hshape
  · intro r c
    have hget := genLoop_mget xv yv vals
      (generateMatrix xv yv vals full).xmap (generateMatrix xv yv vals full).ymap
      (List.range (min (min xv.length yv.length) vals.length))
      (zerosM (generateMatrix xv yv vals full).ymap.length
        (generateMatrix xv yv vals full).xmap.length)
      r c
      (by simp [zerosM])
      (by intro row hrow
          rw [List.eq_of_mem_replicate hrow]
          simp)
      hmem
    rw [show (generateMatrix xv yv vals full).A
        = genLoop xv yv vals (generateMatrix xv yv vals full).xmap
            (generateMatrix xv yv vals full).ymap
            (List.range (min (min xv.length yv.length) vals.length))
            (zerosM (generateMatrix xv yv vals full).ymap.length
              (generateMatrix xv yv vals full).xmap.length) from by
          cases full <;> rfl]
    rw [hget]
    cases lastHit (hitP xv yv (generateMatrix xv yv vals full).xmap
        (generateMatrix xv yv vals full).ymap r c)
        (List.range (min (min xv.length yv.length) vals.length)) with
    | some j => rfl
    | none => exact mget_zerosM _ _ r c

/-- Claim C10 witness: the last-writer and maximality statements applied
at concrete inputs.  On xvec=[0,1,0], yvec=[5,5,5], vals=[10,20,30] the
cell (0,0) is written at indices 0 and 2, so it reads 30; the cell (0,1)
reads 20; and the maximality part instantiated at the predicate hitting
cell (0,0) rules out a later hit. -/
theorem generateMatrix_lastWriterWins_witness :
    mget (generateMatrix [0, 1, 0] [5, 5, 5] [10, 20, 30] false).A 0 0 = 30
    ∧ mget (generateMatrix [0, 1, 0] [5, 5, 5] [10, 20, 30] false).A 0 1 = 20
    ∧ hitP [0, 1, 0] [5, 5, 5]
        (generateMatrix [0, 1, 0] [5, 5, 5] [10, 20, 30] false).xmap
        (generateMatrix [0, 1, 0] [5, 5, 5] [10, 20, 30] false).ymap 0 1 2 = false :=
  have T := generateMatrix_lastWriterWins [0, 1, 0] [5, 5, 5] [10, 20, 30] false
  ⟨by rw [T.2.1 0 0]; decide,
   by rw [T.2.1 0 1]; decide,
   (T.2.2.1 (hitP [0, 1, 0] [5, 5, 5]
        (generateMatrix [0, 1, 0] [5, 5, 5] [10, 20, 30] false).xmap
        (generateMatrix [0, 1, 0] [5, 5, 5] [10, 20, 30] false).ymap 0 1) 3 1
      (by decide)).2.2 2 (by decide) (by decide)⟩

end PyGimli
